import Mathlib

/-!
Verification of the schema parser in `document_schema.py`.

The Python functions are shallowly embedded over `List Char` (the parser is a
character-level scanner driven by a handful of fixed regular expressions; each
regex is hand-compiled here into an explicit scanning function with the same
backtracking behaviour on the pattern's actual alternatives).  All definitions
are executable and structurally recursive, so concrete runs reduce by `decide`.
-/

set_option maxRecDepth 20000
set_option maxHeartbeats 1000000

/-- Characters of a Python string, the representation used throughout. -/
abbrev Str := List Char

/-- Python `\s` for the ASCII range: space, tab, newline, CR, VT, FF
(`_normalize_sql` and every `\s` in the parser's regexes). -/
def isWsChar (c : Char) : Bool :=
  c == ' ' || c == '\t' || c == '\n' || c == '\r' || c == '\x0b' || c == '\x0c'

/-- Python `\w` for the ASCII range: letters, digits, underscore. -/
def isWordChar (c : Char) : Bool :=
  c.isAlphanum || c == '_'

/-- Does the string contain the two-character sequence `a` then `b` adjacently?
Used to test for the comment markers of `_normalize_sql`. -/
def containsSeq2 (a b : Char) : Str → Bool
  | x :: y :: t => (x == a && y == b) || containsSeq2 a b (y :: t)
  | _ => false

/-- Line-comment stripping state machine for the first substitution of
`_normalize_sql` (pattern `--` up to end of line, multiline): from each `--`
all characters up to (excluding) the next newline or the end of input are
removed.  The flag is true while inside a comment being dropped. -/
def slAux : Bool → Str → Str
  | _, [] => []
  | true, c :: cs => if c = '\n' then '\n' :: slAux false cs else slAux true cs
  | false, c :: cs =>
      match cs with
      | [] => [c]
      | d :: t =>
          if c = '-' ∧ d = '-' then slAux true t else c :: slAux false (d :: t)

/-- Block-comment stripping for the second substitution of `_normalize_sql`
(lazy `/* ... */`, dot-matches-all): each opener with a later closer is removed
together with the minimal enclosed text; an opener with no closer anywhere
after it matches nothing and is kept verbatim (and then no later opener can
match either, since no closer follows it). -/
def sbAux : Bool → Str → Str
  | _, [] => []
  | true, c :: cs =>
      match cs with
      | [] => []
      | d :: t => if c = '*' ∧ d = '/' then sbAux false t else sbAux true (d :: t)
  | false, c :: cs =>
      match cs with
      | [] => [c]
      | d :: t =>
          if c = '/' ∧ d = '*' then
            (if containsSeq2 '*' '/' t then sbAux true t else c :: d :: t)
          else c :: sbAux false (d :: t)

/-- Whitespace collapsing for the third substitution of `_normalize_sql`
(runs of whitespace become a single space). `b` records that the previous
input character was part of a run already emitted as one space. -/
def cwAux : Bool → Str → Str
  | _, [] => []
  | b, c :: cs =>
      if isWsChar c then
        (if b then cwAux true cs else ' ' :: cwAux true cs)
      else c :: cwAux false cs

/-- `SchemaParser._normalize_sql`: strip line comments, strip block comments,
collapse whitespace runs to single spaces — in that order. -/
def normalizeSql (s : Str) : Str :=
  cwAux false (sbAux false (slAux false s))

theorem containsSeq2_tail_false {a b x : Char} {t : Str}
    (h : containsSeq2 a b (x :: t) = false) : containsSeq2 a b t = false := by
  cases t with
  | nil => rfl
  | cons y t' =>
    simp only [containsSeq2, Bool.or_eq_false_iff] at h
    exact h.2

theorem slAux_id_of_no_dashdash :
    ∀ s : Str, containsSeq2 '-' '-' s = false → slAux false s = s := by
  intro s
  induction s with
  | nil => intro _; rfl
  | cons c cs ih =>
    intro h
    cases cs with
    | nil => rfl
    | cons d t =>
      by_cases hc : c = '-' ∧ d = '-'
      · exfalso
        obtain ⟨hc1, hc2⟩ := hc
        subst hc1; subst hc2
        simp [containsSeq2] at h
      · have hrec := ih (containsSeq2_tail_false h)
        show (if c = '-' ∧ d = '-' then slAux true t else c :: slAux false (d :: t)) = _
        rw [if_neg hc, hrec]

theorem sbAux_id_of_no_opener :
    ∀ s : Str, containsSeq2 '/' '*' s = false → sbAux false s = s := by
  intro s
  induction s with
  | nil => intro _; rfl
  | cons c cs ih =>
    intro h
    cases cs with
    | nil => rfl
    | cons d t =>
      by_cases hc : c = '/' ∧ d = '*'
      · exfalso
        obtain ⟨hc1, hc2⟩ := hc
        subst hc1; subst hc2
        simp [containsSeq2] at h
      · have hrec := ih (containsSeq2_tail_false h)
        show (if c = '/' ∧ d = '*' then _ else c :: sbAux false (d :: t)) = _
        rw [if_neg hc, hrec]

theorem cwAux_preserves_no_seq2 (a b : Char)
    (ha : isWsChar a = false) (hb : isWsChar b = false) :
    ∀ (s : Str) (m : Bool), containsSeq2 a b s = false →
      containsSeq2 a b (cwAux m s) = false := by
  intro s
  induction s with
  | nil => intro m _; cases m <;> rfl
  | cons c cs ih =>
    intro m h
    have htail : containsSeq2 a b cs = false := containsSeq2_tail_false h
    have hspace_a : (' ' == a) = false := by
      rcases Decidable.em (a = ' ') with h1 | h1
      · subst h1; simp [isWsChar] at ha
      · simpa using fun hh => h1 hh.symm
    have hspace_b : (' ' == b) = false := by
      rcases Decidable.em (b = ' ') with h1 | h1
      · subst h1; simp [isWsChar] at hb
      · simpa using fun hh => h1 hh.symm
    by_cases hw : isWsChar c = true
    · have hrec := ih true htail
      cases m with
      | true => simpa [cwAux, hw] using hrec
      | false =>
        have heq : cwAux false (c :: cs) = ' ' :: cwAux true cs := by
          simp [cwAux, hw]
        rw [heq]
        cases hx : cwAux true cs with
        | nil => rfl
        | cons y t =>
          rw [hx] at hrec
          simp [containsSeq2, hspace_a, hrec]
    · have hw' : isWsChar c = false := by simpa using hw
      have heq : cwAux m (c :: cs) = c :: cwAux false cs := by
        simp [cwAux, hw']
      rw [heq]
      have hrec0 := ih false htail
      cases hx : cwAux false cs with
      | nil => rfl
      | cons y t =>
        rw [hx] at hrec0
        have hy : y = ' ' ∨ cs.head? = some y := by
          cases cs with
          | nil => simp [cwAux] at hx
          | cons d ds =>
            by_cases hd : isWsChar d = true
            · left
              simp [cwAux, hd] at hx
              exact hx.1.symm
            · have hd' : isWsChar d = false := by simpa using hd
              simp [cwAux, hd'] at hx
              right
              show (d :: ds).head? = some y
              rw [List.head?]
              exact congrArg some hx.1
        have hcy : (c == a && y == b) = false := by
          rcases hy with hy | hy
          · subst hy
            simp [hspace_b]
          · cases cs with
            | nil => simp at hy
            | cons d ds =>
              have hdy : d = y := by simpa [List.head?] using hy
              subst hdy
              simp only [containsSeq2, Bool.or_eq_false_iff] at h
              simp [h.1]
        simp [containsSeq2, hcy, hrec0]

/-- Fixed-point predicate for whitespace collapsing: every whitespace
character is a plain space and no two are adjacent. -/
def okRun : Str → Bool
  | [] => true
  | [c] => !isWsChar c || c == ' '
  | c :: d :: t =>
      ((!isWsChar c || c == ' ') && !(isWsChar c && isWsChar d)) && okRun (d :: t)

theorem okRun_cons (c : Char) (X : Str) :
    okRun (c :: X) =
      ((!isWsChar c || c == ' ') &&
        (match X.head? with
         | some d => !(isWsChar c && isWsChar d)
         | none => true) && okRun X) := by
  cases X with
  | nil => simp [okRun]
  | cons d t => simp [okRun]

theorem cwAux_head_true_not_ws (cs : Str) :
    ∀ y, (cwAux true cs).head? = some y → isWsChar y = false := by
  induction cs with
  | nil => intro y hy; simp [cwAux] at hy
  | cons d ds ih =>
    intro y hy
    by_cases hd : isWsChar d = true
    · simp [cwAux, hd] at hy
      exact ih y hy
    · have hd' : isWsChar d = false := by simpa using hd
      simp [cwAux, hd'] at hy
      exact hy ▸ hd'

theorem okRun_cwAux : ∀ (s : Str) (m : Bool), okRun (cwAux m s) = true := by
  intro s
  induction s with
  | nil => intro m; cases m <;> rfl
  | cons c cs ih =>
    intro m
    by_cases hw : isWsChar c = true
    · cases m with
      | true => simpa [cwAux, hw] using ih true
      | false =>
        have heq : cwAux false (c :: cs) = ' ' :: cwAux true cs := by
          simp [cwAux, hw]
        rw [heq, okRun_cons]
        have hok := ih true
        cases hx : cwAux true cs with
        | nil => simp [okRun]
        | cons y t =>
          have hy : isWsChar y = false := by
            apply cwAux_head_true_not_ws cs
            rw [hx]; rfl
          rw [hx] at hok
          simp [hok, hy]
    · have hw' : isWsChar c = false := by simpa using hw
      have heq : cwAux m (c :: cs) = c :: cwAux false cs := by
        simp [cwAux, hw']
      rw [heq, okRun_cons]
      have hok := ih false
      cases hx : cwAux false cs with
      | nil => simp [okRun, hw']
      | cons y t =>
        rw [hx] at hok
        simp [hok, hw']

theorem cwAux_id_of_okRun :
    ∀ s : Str, okRun s = true →
      (cwAux false s = s ∧
        ((∀ d, s.head? = some d → isWsChar d = false) → cwAux true s = s)) := by
  intro s
  induction s with
  | nil => intro _; exact ⟨rfl, fun _ => rfl⟩
  | cons c cs ih =>
    intro h
    rw [okRun_cons] at h
    simp only [Bool.and_eq_true] at h
    obtain ⟨⟨hc, hpair⟩, hcs⟩ := h
    by_cases hw : isWsChar c = true
    · have hsp : c = ' ' := by
        rcases Bool.or_eq_true_iff.mp hc with h1 | h1
        · rw [hw] at h1; simp at h1
        · exact (beq_iff_eq.mp h1)
      have hheadcs : ∀ d, cs.head? = some d → isWsChar d = false := by
        intro d hd
        rw [hd] at hpair
        simp only [Bool.not_eq_true'] at hpair
        rcases Bool.and_eq_false_iff.mp hpair with h1 | h1
        · rw [hw] at h1; simp at h1
        · exact h1
      have htrue := (ih hcs).2 hheadcs
      constructor
      · have heq : cwAux false (c :: cs) = ' ' :: cwAux true cs := by
          simp [cwAux, hw]
        rw [heq, htrue, hsp]
      · intro hhead
        exfalso
        have := hhead c rfl
        rw [hw] at this; simp at this
    · have hw' : isWsChar c = false := by simpa using hw
      have hfalse := (ih hcs).1
      have heq : ∀ m : Bool, cwAux m (c :: cs) = c :: cwAux false cs := by
        intro m; simp [cwAux, hw']
      exact ⟨by rw [heq false, hfalse], fun _ => by rw [heq true, hfalse]⟩

theorem cwAux_idem (s : Str) : cwAux false (cwAux false s) = cwAux false s :=
  (cwAux_id_of_okRun (cwAux false s) (okRun_cwAux s false)).1

/-- C3 (amended): normalization is idempotent on every input that contains no
line-comment marker (dash-dash) and no block-comment opener (slash-star).  On
such inputs both comment-stripping passes are the identity and whitespace
collapsing is idempotent; collapsing never creates a new marker because it
only replaces whitespace runs by a single space. -/
theorem C3_normalize_idempotent_amended (s : Str)
    (h1 : containsSeq2 '-' '-' s = false)
    (h2 : containsSeq2 '/' '*' s = false) :
    normalizeSql (normalizeSql s) = normalizeSql s := by
  have hdash : isWsChar '-' = false := by decide
  have hslash : isWsChar '/' = false := by decide
  have hstar : isWsChar '*' = false := by decide
  have hn : normalizeSql s = cwAux false s := by
    unfold normalizeSql
    rw [slAux_id_of_no_dashdash s h1, sbAux_id_of_no_opener s h2]
  rw [hn]
  have hp1 : containsSeq2 '-' '-' (cwAux false s) = false :=
    cwAux_preserves_no_seq2 '-' '-' hdash hdash s false h1
  have hp2 : containsSeq2 '/' '*' (cwAux false s) = false :=
    cwAux_preserves_no_seq2 '/' '*' hslash hstar s false h2
  unfold normalizeSql
  rw [slAux_id_of_no_dashdash _ hp1, sbAux_id_of_no_opener _ hp2, cwAux_idem]

/-- C3 (counterexample): normalization is not idempotent in general.  On the
input dash, block comment around x, dash, removing the block comment splices
the two surrounding dashes into a new line-comment marker, which the second
normalization then deletes entirely. -/
theorem C3_normalize_idempotent_counterexample :
    normalizeSql (normalizeSql ("-/*x*/-").data) ≠
      normalizeSql ("-/*x*/-").data := by decide

/-- C3 (witness): the amended idempotence theorem applied at a concrete input
free of comment markers. -/
theorem C3_normalize_idempotent_witness :
    containsSeq2 '-' '-' ("SELECT 1 ;").data = false ∧
      containsSeq2 '/' '*' ("SELECT 1 ;").data = false ∧
      normalizeSql (normalizeSql ("SELECT 1 ;").data) =
        normalizeSql ("SELECT 1 ;").data :=
  ⟨by decide, by decide,
    C3_normalize_idempotent_amended ("SELECT 1 ;").data (by decide) (by decide)⟩

/-- Python `.strip()`: remove leading and trailing whitespace. -/
def trimWs (s : Str) : Str :=
  ((s.dropWhile isWsChar).reverse.dropWhile isWsChar).reverse

/-- Match a literal keyword case-insensitively (the parser compiles all its
regexes with the ignore-case flag); returns the input after the keyword. -/
def litCI : Str → Str → Option Str
  | [], s => some s
  | _ :: _, [] => none
  | p :: ps, c :: cs => if p.toLower = c.toLower then litCI ps cs else none

/-- Consume one expected character. -/
def expectChar (ch : Char) : Str → Option Str
  | [] => none
  | c :: cs => if c = ch then some cs else none

/-- Regex `\s*`: drop any run of whitespace. -/
def dropWs (s : Str) : Str := s.dropWhile isWsChar

/-- Regex `\s+`: require at least one whitespace character, drop the run. -/
def ws1 : Str → Option Str
  | [] => none
  | c :: cs => if isWsChar c then some (cs.dropWhile isWsChar) else none

/-- Regex `(\w+)`: a maximal nonempty run of word characters (every use in the
parser's patterns is followed by a non-word construct, so the maximal run is
the only viable capture). -/
def wordRun1 (s : Str) : Option (Str × Str) :=
  let w := s.takeWhile isWordChar
  if w.isEmpty then none else some (w, s.dropWhile isWordChar)

/-- The balanced-delimiter scanner shared by every extraction routine
(`while j < len(sql) and paren_depth > 0` in `_parse_tables`,
`_extract_column_check_constraints`, `_parse_table_check_constraints`,
`_parse_alter_table_check_constraints`, `_parse_indexes`): starting at depth
`d` it advances until depth returns to zero, returning the span before the
matching close and the remainder after it, or `none` when the input ends
first (the "unterminated" case). -/
def scanBal : Nat → Str → Option (Str × Str)
  | _, [] => none
  | d, c :: cs =>
      if c = '(' then (scanBal (d + 1) cs).map (fun p => (c :: p.1, p.2))
      else if c = ')' then
        (if d = 1 then some ([], cs)
         else (scanBal (d - 1) cs).map (fun p => (c :: p.1, p.2)))
      else (scanBal d cs).map (fun p => (c :: p.1, p.2))

/-- Executable balance check: scanning `s` from relative depth `d`, the depth
never dips below zero and ends at zero. -/
def nestOK : Nat → Str → Bool
  | d, [] => d == 0
  | d, c :: cs =>
      if c = '(' then nestOK (d + 1) cs
      else if c = ')' then (decide (0 < d) && nestOK (d - 1) cs)
      else nestOK d cs

theorem scanBal_of_nestOK :
    ∀ (e : Str) (d : Nat) (rest : Str), nestOK d e = true →
      scanBal (d + 1) (e ++ ')' :: rest) = some (e, rest) := by
  intro e
  induction e with
  | nil =>
    intro d rest h
    have hd : d = 0 := by simpa [nestOK] using h
    subst hd
    simp [scanBal]
  | cons c cs ih =>
    intro d rest h
    by_cases hc : c = '('
    · subst hc
      have h' : nestOK (d + 1) cs = true := by simpa [nestOK] using h
      have := ih (d + 1) rest h'
      simp [scanBal, List.cons_append, this]
    · by_cases hc2 : c = ')'
      · subst hc2
        have h' : 0 < d ∧ nestOK (d - 1) cs = true := by
          simpa [nestOK] using h
        have hd1 : d - 1 + 1 = d := Nat.succ_pred_eq_of_pos h'.1
        have hrec := ih (d - 1) rest h'.2
        rw [hd1] at hrec
        have hne : ¬(d + 1 = 1) := by omega
        simp [scanBal, List.cons_append, hne, hrec]
      · have h' : nestOK d cs = true := by simpa [nestOK, hc, hc2] using h
        have := ih d rest h'
        simp [scanBal, List.cons_append, hc, hc2, this]

theorem scanBal_eq_none_iff :
    ∀ (s : Str) (d : Nat), 0 < d →
      (scanBal d s = none ↔
        ∀ p q : Str, s = p ++ q → p.count ')' < p.count '(' + d) := by
  intro s
  induction s with
  | nil =>
    intro d hd
    constructor
    · intro _ p q hpq
      have hp : p = [] := by
        cases p with
        | nil => rfl
        | cons a t => simp at hpq
      subst hp
      simpa using hd
    · intro _; rfl
  | cons c cs ih =>
    intro d hd
    by_cases hc : c = '('
    · subst hc
      have hmap : scanBal d ('(' :: cs) = none ↔ scanBal (d + 1) cs = none := by
        simp [scanBal]
      rw [hmap, ih (d + 1) (by omega)]
      constructor
      · intro h p q hpq
        cases p with
        | nil => simpa using hd
        | cons a t =>
          simp only [List.cons_append, List.cons.injEq] at hpq
          obtain ⟨ha, ht⟩ := hpq
          subst ha
          have := h t q ht
          simp [List.count_cons]
          omega
      · intro h p q hpq
        have := h ('(' :: p) q (by simp [hpq])
        simp [List.count_cons] at this
        omega
    · by_cases hc2 : c = ')'
      · subst hc2
        by_cases hd1 : d = 1
        · subst hd1
          constructor
          · intro h
            exfalso
            simp [scanBal] at h
          · intro h
            exfalso
            have := h [')'] cs rfl
            simp [List.count_cons] at this
        · have hmap : scanBal d (')' :: cs) = none ↔ scanBal (d - 1) cs = none := by
            simp [scanBal, hd1]
          rw [hmap, ih (d - 1) (by omega)]
          constructor
          · intro h p q hpq
            cases p with
            | nil => simpa using hd
            | cons a t =>
              simp only [List.cons_append, List.cons.injEq] at hpq
              obtain ⟨ha, ht⟩ := hpq
              subst ha
              have := h t q ht
              simp [List.count_cons]
              omega
          · intro h p q hpq
            have := h (')' :: p) q (by simp [hpq])
            simp [List.count_cons] at this
            omega
      · have hmap : scanBal d (c :: cs) = none ↔ scanBal d cs = none := by
          simp [scanBal, hc, hc2]
        rw [hmap, ih d hd]
        constructor
        · intro h p q hpq
          cases p with
          | nil => simpa using hd
          | cons a t =>
            simp only [List.cons_append, List.cons.injEq] at hpq
            obtain ⟨ha, ht⟩ := hpq
            subst ha
            have := h t q ht
            simp [List.count_cons, hc, hc2]
            omega
        · intro h p q hpq
          have := h (c :: p) q (by simp [hpq])
          simp [List.count_cons, hc, hc2] at this
          omega

/-- Dataclass `Column` of `document_schema.py`. -/
structure Column where
  name : Str
  data_type : Str
  is_nullable : Bool := true
  default_value : Option Str := none
  is_primary_key : Bool := false
  is_unique : Bool := false
  check_constraints : List Str := []
deriving Repr, DecidableEq

/-- Dataclass `ForeignKey` of `document_schema.py`. -/
structure ForeignKey where
  from_table : Str
  from_columns : List Str
  to_table : Str
  to_columns : List Str
  constraint_name : Str
deriving Repr, DecidableEq

/-- Dataclass `CheckConstraint` of `document_schema.py`. -/
structure CheckConstraint where
  name : Option Str := none
  expression : Str := []
deriving Repr, DecidableEq

/-- Dataclass `Table` of `document_schema.py`. -/
structure Table where
  name : Str
  schema : Str := ("public").data
  columns : List Column := []
  primary_key_columns : List Str := []
  foreign_keys : List ForeignKey := []
  check_constraints : List CheckConstraint := []
  indexes : List Str := []
  comment : Option Str := none
deriving Repr, DecidableEq

/-- Anchor of the inline-CHECK pattern of
`_extract_column_check_constraints` (keyword CHECK, optional whitespace, an
opening parenthesis); returns the text after the opening parenthesis. -/
def matchCheckAt (s : Str) : Option Str :=
  match litCI ("CHECK").data s with
  | none => none
  | some r => expectChar '(' (dropWs r)

/-- All anchor matches of the inline-CHECK pattern, left to right and
non-overlapping (Python `re.finditer`); each element is the text after the
match's opening parenthesis.  The fuel is the input length; every step
consumes at least one character. -/
def findChecksAux : Nat → Str → List Str
  | 0, _ => []
  | _ + 1, [] => []
  | f + 1, c :: cs =>
      match matchCheckAt (c :: cs) with
      | some rest => rest :: findChecksAux f rest
      | none => findChecksAux f cs

/-- `SchemaParser._extract_column_check_constraints`: for each CHECK anchor,
scan for the balanced closing parenthesis; terminated expressions are kept
(stripped), unterminated ones are dropped. -/
def extractColumnChecks (colDef : Str) : List Str :=
  (findChecksAux colDef.length colDef).filterMap
    (fun rest => (scanBal 1 rest).map (fun p => trimWs p.1))

/-- Anchor of the table-level CHECK pattern of
`_parse_table_check_constraints` (optional CONSTRAINT name, then CHECK,
optional whitespace, an opening parenthesis), anchored at the start of a
fragment; returns the optional constraint name and the text after the opening
parenthesis. -/
def matchTableCheckAt (part : Str) : Option (Option Str × Str) :=
  match
    (match litCI ("CONSTRAINT").data part with
     | none => none
     | some r1 =>
       match ws1 r1 with
       | none => none
       | some r2 =>
         match wordRun1 r2 with
         | none => none
         | some (nm, r3) =>
           match ws1 r3 with
           | none => none
           | some r4 =>
             match litCI ("CHECK").data r4 with
             | none => none
             | some r5 => (expectChar '(' (dropWs r5)).map (fun r6 => (some nm, r6)))
  with
  | some res => some res
  | none =>
    match litCI ("CHECK").data part with
    | none => none
    | some r => (expectChar '(' (dropWs r)).map (fun r6 => ((none : Option Str), r6))

/-- Per-fragment step of `_parse_table_check_constraints`: match the anchor,
then scan for the balanced closing parenthesis; the stripped expression is
kept only when the scan terminates. -/
def tableCheckOfPart (part : Str) : Option CheckConstraint :=
  match matchTableCheckAt part with
  | none => none
  | some (nm, rest) =>
      match scanBal 1 rest with
      | some (e, _) => some ⟨nm, trimWs e⟩
      | none => none

theorem matchCheckAt_lit (s : Str) :
    matchCheckAt (("CHECK (").data ++ s) = some s := rfl

theorem findChecksAux_cons_match (f : Nat) (c : Char) (cs rest : Str)
    (h : matchCheckAt (c :: cs) = some rest) :
    findChecksAux (f + 1) (c :: cs) = rest :: findChecksAux f rest := by
  simp [findChecksAux, h]

/-- C4: CHECK-expression extraction returns the full balanced span.  For every
parenthesis-balanced expression `e`: the shared scanner applied just after the
opening parenthesis returns exactly `e` and the remainder after its matching
close; consequently the first inline column CHECK of a fragment beginning
`CHECK (e)` is the stripped `e` itself, and a table-level fragment beginning
`CHECK (e)` yields an unnamed constraint whose expression is the stripped `e`
— never a prefix cut at an inner closing parenthesis. -/
theorem C4_check_nested_parens (e post : Str) (h : nestOK 0 e = true) :
    scanBal 1 (e ++ ')' :: post) = some (e, post) ∧
    (extractColumnChecks (("CHECK (").data ++ e ++ ')' :: post)).head? =
      some (trimWs e) ∧
    tableCheckOfPart (("CHECK (").data ++ e ++ ')' :: post) =
      some ⟨none, trimWs e⟩ := by
  have hscan : scanBal 1 (e ++ ')' :: post) = some (e, post) :=
    scanBal_of_nestOK e 0 post h
  refine ⟨hscan, ?_, ?_⟩
  · unfold extractColumnChecks
    have hlen : (("CHECK (").data ++ e ++ ')' :: post).length =
        ((e ++ ')' :: post).length + 6) + 1 := by
      simp [List.length_append]
    rw [hlen]
    have hassoc : ("CHECK (").data ++ e ++ ')' :: post =
        ("CHECK (").data ++ (e ++ ')' :: post) := by
      simp
    rw [hassoc]
    have hm : matchCheckAt (("CHECK (").data ++ (e ++ ')' :: post)) =
        some (e ++ ')' :: post) := matchCheckAt_lit _
    have hstep := findChecksAux_cons_match ((e ++ ')' :: post).length + 6)
      'C' (("HECK (").data ++ (e ++ ')' :: post)) (e ++ ')' :: post) hm
    rw [show ('C' :: (("HECK (").data ++ (e ++ ')' :: post))) =
        (("CHECK (").data ++ (e ++ ')' :: post)) from rfl] at hstep
    rw [hstep]
    simp only [List.filterMap_cons, hscan, Option.map_some']
    rfl
  · show tableCheckOfPart (("CHECK (").data ++ e ++ ')' :: post) = _
    have hassoc : ("CHECK (").data ++ e ++ ')' :: post =
        ("CHECK (").data ++ (e ++ ')' :: post) := by
      simp
    rw [hassoc]
    have hanchor : matchTableCheckAt (("CHECK (").data ++ (e ++ ')' :: post)) =
        some ((none : Option Str), e ++ ')' :: post) := rfl
    unfold tableCheckOfPart
    rw [hanchor]
    simp [hscan]

/-- C4 (witness): the specification's own example.  The nested expression
is recovered in full, not cut at the first inner closing parenthesis. -/
theorem C4_check_nested_parens_witness :
    nestOK 0 ("(a > 0) AND (b < (a + 10))").data = true ∧
    (extractColumnChecks (("CHECK ((a > 0) AND (b < (a + 10)))").data)).head? =
      some (("(a > 0) AND (b < (a + 10))").data) := by
  refine ⟨by decide, ?_⟩
  have h := C4_check_nested_parens (("(a > 0) AND (b < (a + 10))").data) []
    (by decide)
  have h2 := h.2.1
  have heq : ("CHECK (").data ++ ("(a > 0) AND (b < (a + 10))").data ++
      [')'] = ("CHECK ((a > 0) AND (b < (a + 10)))").data := by decide
  rw [heq] at h2
  rw [h2]
  decide

/-- `SchemaParser._split_table_definition`: split on commas at parenthesis
depth zero, stripping each part; a comma-separated part is appended even when
empty, but an empty final remainder is discarded.  Depth is an integer, as in
Python, so an unbalanced close keeps counting downward. -/
def splitTDAux (depth : Int) (cur : Str) : Str → List Str
  | [] => if (trimWs cur).isEmpty then [] else [trimWs cur]
  | c :: cs =>
      if c = '(' then splitTDAux (depth + 1) (cur ++ [c]) cs
      else if c = ')' then splitTDAux (depth - 1) (cur ++ [c]) cs
      else if c = ',' ∧ depth = 0 then trimWs cur :: splitTDAux 0 [] cs
      else splitTDAux depth (cur ++ [c]) cs

/-- Wrapper for `_split_table_definition`. -/
def splitTableDefinition (td : Str) : List Str := splitTDAux 0 [] td

/-- Python `str.upper` (ASCII). -/
def upperStr (s : Str) : Str := s.map Char.toUpper

/-- Python `str.startswith` on one prefix. -/
def startsWith (pre s : Str) : Bool := List.isPrefixOf pre s

/-- Python `in` on strings: does `pat` occur as a contiguous substring? -/
def containsStr (pat : Str) : Str → Bool
  | [] => pat.isEmpty
  | c :: cs => List.isPrefixOf pat (c :: cs) || containsStr pat cs

/-- Fragment filter of `_parse_columns`: fragments beginning with a constraint
keyword are not columns. -/
def isConstraintFragment (colDef : Str) : Bool :=
  let u := upperStr colDef
  startsWith ("CONSTRAINT").data u || startsWith ("PRIMARY KEY").data u ||
    startsWith ("FOREIGN KEY").data u || startsWith ("UNIQUE").data u ||
    startsWith ("CHECK").data u

/-- Regex `\d+`. -/
def digits1 : Str → Option Str
  | [] => none
  | c :: cs => if c.isDigit then some (cs.dropWhile Char.isDigit) else none

/-- Type pattern (a) of `_parse_columns`: a word then WITH TIME ZONE; returns
the remainder, the capture being the consumed span. -/
def matchTypeA (rest : Str) : Option Str :=
  match wordRun1 rest with
  | none => none
  | some (_, r1) =>
    match ws1 r1 with
    | none => none
    | some r2 =>
      match litCI ("WITH").data r2 with
      | none => none
      | some r3 =>
        match ws1 r3 with
        | none => none
        | some r4 =>
          match litCI ("TIME").data r4 with
          | none => none
          | some r5 =>
            match ws1 r5 with
            | none => none
            | some r6 =>
              match litCI ("ZONE").data r6 with
              | none => none
              | some r7 => some r7

/-- Close of type pattern (b): optional whitespace then a closing parenthesis. -/
def closeParen (s : Str) : Option Str := expectChar ')' (dropWs s)

/-- Optional scale part of type pattern (b): whitespace, comma, whitespace,
digits. -/
def commaDigits (s : Str) : Option Str :=
  match expectChar ',' (dropWs s) with
  | none => none
  | some r => digits1 (dropWs r)

/-- Type pattern (b) of `_parse_columns`: a word, an opening parenthesis,
digits, an optional comma-digits scale, a closing parenthesis; returns the
remainder.  If the scale part matches but no close follows, the engine
backtracks to the scale-free alternative. -/
def matchTypeB (rest : Str) : Option Str :=
  match wordRun1 rest with
  | none => none
  | some (_, r1) =>
    match expectChar '(' (dropWs r1) with
    | none => none
    | some r2 =>
      match digits1 (dropWs r2) with
      | none => none
      | some r3 =>
        match commaDigits r3 with
        | some r4 =>
            (match closeParen r4 with
             | some r5 => some r5
             | none => closeParen r3)
        | none => closeParen r3

/-- Data-type extraction of `_parse_columns`: patterns tried from most to
least specific, first match wins, capture stripped; an unmatchable remainder
yields the literal "unknown". -/
def dataTypeOf (rest : Str) : Str :=
  match matchTypeA rest with
  | some rem => trimWs (rest.take (rest.length - rem.length))
  | none =>
    match matchTypeB rest with
    | some rem => trimWs (rest.take (rest.length - rem.length))
    | none =>
      match wordRun1 rest with
      | some (w, _) => trimWs w
      | none => ("unknown").data

/-- Capture loop of the DEFAULT regex of `_parse_columns`: greedy repetitions
of a maximal comma-free whitespace-free chunk followed by one separator
character (whitespace, comma, or end of input). -/
def capChunks : Nat → Str → Str
  | 0, _ => []
  | f + 1, s =>
      let run := s.takeWhile (fun c => !(c == ',' || isWsChar c))
      if run.isEmpty then []
      else
        match s.drop run.length with
        | [] => run
        | c :: cs => run ++ c :: capChunks f cs

/-- Leftmost match of the DEFAULT pattern of `_parse_columns`: the keyword,
mandatory whitespace, then the capture loop. -/
def searchDefaultAux : Nat → Str → Option Str
  | 0, _ => none
  | _ + 1, [] => none
  | f + 1, c :: cs =>
      match litCI ("DEFAULT").data (c :: cs) with
      | some r =>
          match ws1 r with
          | some r2 => some (capChunks r2.length r2)
          | none => searchDefaultAux f cs
      | none => searchDefaultAux f cs

/-- Keyword test of the trailing-keyword cleanup regex of `_parse_columns`. -/
def kwAt (s : Str) : Bool :=
  (match litCI ("NOT").data s with
   | some r =>
     (match ws1 r with
      | some r2 => (litCI ("NULL").data r2).isSome
      | none => false)
   | none => false) ||
  (litCI ("UNIQUE").data s).isSome || (litCI ("CHECK").data s).isSome ||
  (litCI ("PRIMARY").data s).isSome || (litCI ("FOREIGN").data s).isSome ||
  (litCI ("CONSTRAINT").data s).isSome

/-- Trailing-keyword cleanup of `_parse_columns`: truncate at the leftmost
whitespace run that is followed by a constraint keyword. -/
def cutKwAux : Str → Str
  | [] => []
  | c :: cs =>
      if isWsChar c ∧ kwAt (dropWs (c :: cs)) then []
      else c :: cutKwAux cs

/-- Python `.rstrip` with a comma. -/
def dropTrailCommas (s : Str) : Str :=
  (s.reverse.dropWhile (fun c => c == ',')).reverse

/-- A surrounding-quote character: apostrophe (code 39) or double quote. -/
def isQuoteChar (c : Char) : Bool := c.toNat == 39 || c == '"'

/-- Python `.strip` with both quote characters. -/
def stripQuotes (s : Str) : Str :=
  ((s.dropWhile isQuoteChar).reverse.dropWhile isQuoteChar).reverse

/-- Truncation step of `_parse_columns`: a default value longer than 50
characters is cut to its first 47 characters plus an ellipsis. -/
def truncateDefault (d : Str) : Str :=
  if 50 < d.length then d.take 47 ++ ("...").data else d

/-- Full default-value pipeline of `_parse_columns`: capture, strip, remove a
trailing constraint keyword, strip, remove trailing commas, strip surrounding
quotes, truncate. -/
def defaultValueOf (colDef : Str) : Option Str :=
  (searchDefaultAux colDef.length colDef).map (fun cap =>
    truncateDefault (stripQuotes (dropTrailCommas (trimWs (cutKwAux (trimWs cap))))))

/-- Per-fragment step of `_parse_columns`: reject empty and constraint
fragments, require a leading identifier, then assemble the column. -/
def parseColumnOfFragment (colDef : Str) : Option Column :=
  if colDef.isEmpty || isConstraintFragment colDef then none
  else
    match wordRun1 colDef with
    | none => none
    | some (nm, _) =>
        some
          { name := nm
            data_type := dataTypeOf (trimWs (colDef.drop nm.length))
            is_nullable := !(containsStr ("NOT NULL").data (upperStr colDef))
            default_value := defaultValueOf colDef
            is_unique := containsStr ("UNIQUE").data (upperStr colDef)
            check_constraints := extractColumnChecks colDef }

/-- `SchemaParser._parse_columns`. -/
def parseColumns (td : Str) : List Column :=
  (splitTableDefinition td).filterMap parseColumnOfFragment

theorem truncateDefault_length_le (d : Str) : (truncateDefault d).length ≤ 50 := by
  unfold truncateDefault
  split
  · have h3 : (("...").data).length = 3 := rfl
    simp only [List.length_append, List.length_take, h3]
    omega
  · omega

/-- Every default value stored by the column parser is at most 50 characters
long (47 plus the three-character ellipsis when truncated). -/
theorem parseColumns_default_length_le (td : Str) (c : Column)
    (hc : c ∈ parseColumns td) (v : Str) (hv : c.default_value = some v) :
    v.length ≤ 50 := by
  unfold parseColumns at hc
  rw [List.mem_filterMap] at hc
  obtain ⟨frag, _, hfrag⟩ := hc
  unfold parseColumnOfFragment at hfrag
  split at hfrag
  · exact absurd hfrag (by simp)
  · split at hfrag
    · exact absurd hfrag (by simp)
    · rename_i nm r heq
      have hcol := Option.some.inj hfrag
      rw [← hcol] at hv
      simp only at hv
      unfold defaultValueOf at hv
      rw [Option.map_eq_some'] at hv
      obtain ⟨u, _, hu⟩ := hv
      rw [← hu]
      exact truncateDefault_length_le _

/-- C9: default-value truncation.  A captured default whose quote-stripped
form exceeds 50 characters is stored as its first 47 characters followed by
an ellipsis; one of 50 characters or fewer is stored unmodified; and every
default stored by the column parser is the truncation of the quote-stripped
cleaned capture. -/
theorem C9_default_truncation :
    (∀ u : Str, 50 < u.length → truncateDefault u = u.take 47 ++ ("...").data) ∧
    (∀ u : Str, u.length ≤ 50 → truncateDefault u = u) ∧
    (∀ (td : Str) (c : Column), c ∈ parseColumns td →
      ∀ v, c.default_value = some v → ∃ u : Str, v = truncateDefault (stripQuotes u)) := by
  refine ⟨?_, ?_, ?_⟩
  · intro u hu
    unfold truncateDefault
    rw [if_pos hu]
  · intro u hu
    unfold truncateDefault
    rw [if_neg (by omega)]
  · intro td c hc v hv
    unfold parseColumns at hc
    rw [List.mem_filterMap] at hc
    obtain ⟨frag, _, hfrag⟩ := hc
    unfold parseColumnOfFragment at hfrag
    split at hfrag
    · exact absurd hfrag (by simp)
    · split at hfrag
      · exact absurd hfrag (by simp)
      · have hcol := Option.some.inj hfrag
        rw [← hcol] at hv
        simp only at hv
        unfold defaultValueOf at hv
        rw [Option.map_eq_some'] at hv
        obtain ⟨u, _, hu⟩ := hv
        exact ⟨dropTrailCommas (trimWs (cutKwAux (trimWs u))), hu.symm⟩

/-- C9 (witness): the truncation theorem applied at concrete inputs — a
51-character default is cut to 47 characters plus the ellipsis, a short
default is stored unmodified, and a concrete parsed column's stored default
is the truncation of a quote-stripped capture. -/
theorem C9_default_truncation_witness :
    truncateDefault ("12345678901234567890123456789012345678901234567890X").data =
      (("12345678901234567890123456789012345678901234567890X").data).take 47 ++ ("...").data ∧
    truncateDefault (("now()").data) = ("now()").data ∧
    (∃ u : Str,
      ("aaaaaaaaaaaaaaaaaaaaaaaaaaaaaaaaaaaaaaaaaaaaaaa...").data = truncateDefault (stripQuotes u)) :=
  ⟨C9_default_truncation.1 ("12345678901234567890123456789012345678901234567890X").data (by decide),
   C9_default_truncation.2.1 (("now()").data) (by decide),
   C9_default_truncation.2.2 ("notes text DEFAULT \'aaaaaaaaaaaaaaaaaaaaaaaaaaaaaaaaaaaaaaaaaaaaaaaaaaaaaaaaaaaa\' NOT NULL").data
     ⟨("notes").data, ("text").data, false,
       some ("aaaaaaaaaaaaaaaaaaaaaaaaaaaaaaaaaaaaaaaaaaaaaaa...").data, false, false, []⟩
     (by decide) ("aaaaaaaaaaaaaaaaaaaaaaaaaaaaaaaaaaaaaaaaaaaaaaa...").data (by decide)⟩

/-- Tail of the inline primary-key pattern of `_extract_primary_key`:
keyword PRIMARY, whitespace, keyword KEY, then a word boundary (end of input
or a non-word character); returns the remainder after KEY. -/
def tryPrimaryKey (s : Str) : Option Str :=
  match litCI ("PRIMARY").data s with
  | none => none
  | some r =>
    match ws1 r with
    | none => none
    | some r2 =>
      match litCI ("KEY").data r2 with
      | none => none
      | some r3 =>
        match r3 with
        | [] => some []
        | c :: _ => if isWordChar c then none else some r3

/-- Lazy-dot search of the inline primary-key pattern: the earliest position
(word-boundary anchored, never crossing a newline, since the pattern's dot
does not match newlines) where PRIMARY KEY matches; `prev` is the preceding
character for the boundary test. -/
def searchPkTail (prev : Char) : Str → Option Str
  | [] => none
  | c :: cs =>
      match (if isWordChar prev then none else tryPrimaryKey (c :: cs)) with
      | some r => some r
      | none => if c = '\n' then none else searchPkTail c cs

/-- One anchored attempt of the inline primary-key pattern of
`_extract_primary_key` (a word, whitespace, a second word, lazily anything,
then boundary-anchored PRIMARY KEY): returns the captured leading identifier
and the remainder after the match. -/
def matchPkInlineAt (s : Str) : Option (Str × Str) :=
  match wordRun1 s with
  | none => none
  | some (w1, r1) =>
    match ws1 r1 with
    | none => none
    | some r2 =>
      match r2 with
      | [] => none
      | c0 :: rest0 =>
          if isWordChar c0 then
            match searchPkTail c0 rest0 with
            | some r => some (w1, r)
            | none => none
          else none

/-- `re.findall` loop of the inline primary-key pattern: non-overlapping
left-to-right matches over the whole table body, each contributing its
captured leading identifier. -/
def pkInlineAux : Nat → Str → List Str
  | 0, _ => []
  | _ + 1, [] => []
  | f + 1, c :: cs =>
      match matchPkInlineAt (c :: cs) with
      | some (w, rest) => w :: pkInlineAux f rest
      | none => pkInlineAux f cs

/-- Inline primary-key detection of `_extract_primary_key`. -/
def pkInline (td : Str) : List Str := pkInlineAux td.length td

/-- Core of the named-constraint primary-key pattern: PRIMARY, whitespace,
KEY, optional whitespace, an opening parenthesis, a nonempty run of
non-close characters, a closing parenthesis; returns the captured run. -/
def pkCore (s : Str) : Option Str :=
  match litCI ("PRIMARY").data s with
  | none => none
  | some r =>
    match ws1 r with
    | none => none
    | some r2 =>
      match litCI ("KEY").data r2 with
      | none => none
      | some r3 =>
        match expectChar '(' (dropWs r3) with
        | none => none
        | some r4 =>
          let inner := r4.takeWhile (fun c => !(c == ')'))
          if inner.isEmpty then none
          else
            match r4.drop inner.length with
            | c :: _ => if c = ')' then some inner else none
            | [] => none

/-- One anchored attempt of the named-constraint primary-key pattern of
`_extract_primary_key` (optional CONSTRAINT name prefix, then the core). -/
def matchPkConstraintAt (s : Str) : Option Str :=
  match
    (match litCI ("CONSTRAINT").data s with
     | none => none
     | some r1 =>
       match ws1 r1 with
       | none => none
       | some r2 =>
         match wordRun1 r2 with
         | none => none
         | some (_, r3) =>
           match ws1 r3 with
           | none => none
           | some r4 => pkCore r4)
  with
  | some cap => some cap
  | none => pkCore s

/-- `re.search` of the named-constraint primary-key pattern: leftmost match. -/
def searchPkConstraintAux : Nat → Str → Option Str
  | 0, _ => none
  | _ + 1, [] => none
  | f + 1, c :: cs =>
      match matchPkConstraintAt (c :: cs) with
      | some cap => some cap
      | none => searchPkConstraintAux f cs

/-- Python `str.split` on a comma. -/
def splitCommaAux (cur : Str) : Str → List Str
  | [] => [cur]
  | c :: cs =>
      if c = ',' then cur :: splitCommaAux [] cs
      else splitCommaAux (cur ++ [c]) cs

/-- Column cleanup of the named-constraint path (and of the foreign-key
column lists): strip whitespace, then strip double quotes. -/
def cleanCol (s : Str) : Str :=
  let t := trimWs s
  ((t.dropWhile (fun c => c == '"')).reverse.dropWhile (fun c => c == '"')).reverse

/-- `SchemaParser._extract_primary_key`: the inline findall result if it is
nonempty, otherwise the column list of the first named-constraint form
(split on commas, each column stripped of whitespace and double quotes),
otherwise the empty list. -/
def extractPrimaryKey (td : Str) : List Str :=
  let inline := pkInline td
  if !inline.isEmpty then inline
  else
    match searchPkConstraintAux td.length td with
    | some cap => (splitCommaAux [] cap).map cleanCol
    | none => []

/-- Modelled from the claim's words, for comparison with the code (the code
is `extractPrimaryKey` above): inline detection in which each column fragment
containing a PRIMARY KEY marker contributes its own leading identifier. -/
def specFragmentwiseInlinePk (td : Str) : List Str :=
  (splitTableDefinition td).filterMap (fun frag =>
    if !isConstraintFragment frag &&
        containsStr ("PRIMARY KEY").data (upperStr frag) then
      (wordRun1 frag).map Prod.fst
    else none)

/-- C2 (counterexample): inline primary-key detection is not fragment-wise.
On the body with columns `a int` and `b int PRIMARY KEY`, the code's single
regex scan spans the comma: the match begins at the first column and captures
`a`, while the claim's fragment rule would attribute the marker to `b`. -/
theorem C2_pk_inline_counterexample :
    extractPrimaryKey (("a int, b int PRIMARY KEY").data) = [("a").data] ∧
    specFragmentwiseInlinePk (("a int, b int PRIMARY KEY").data) = [("b").data] ∧
    extractPrimaryKey (("a int, b int PRIMARY KEY").data) ≠
      specFragmentwiseInlinePk (("a int, b int PRIMARY KEY").data) := by
  refine ⟨by decide, by decide, by decide⟩

/-- C2 (amended): primary-key extraction first runs the inline detection as a
single non-overlapping regex scan of the whole table body (matches may span
fragment boundaries, each match contributing its captured leading
identifier); exactly when that scan finds nothing, the column list of the
first `[CONSTRAINT name] PRIMARY KEY (col, ...)` form is taken, with
whitespace and double quotes stripped from each column.  The two paths are
mutually exclusive fallbacks, the inline result preferred unconditionally. -/
theorem C2_pk_paths_amended (td : Str) :
    (pkInline td ≠ [] → extractPrimaryKey td = pkInline td) ∧
    (pkInline td = [] →
      extractPrimaryKey td =
        (match searchPkConstraintAux td.length td with
         | some cap => (splitCommaAux [] cap).map cleanCol
         | none => [])) := by
  constructor
  · intro h
    cases hpk : pkInline td with
    | nil => exact absurd hpk h
    | cons x xs => simp [extractPrimaryKey, hpk]
  · intro h
    simp [extractPrimaryKey, h]

/-- C2 (witness): both branches of the amended theorem at concrete inputs —
an inline match wins, and an inline-free body falls back to the
named-constraint column list with quotes stripped. -/
theorem C2_pk_paths_witness :
    pkInline (("id integer PRIMARY KEY, name text").data) ≠ [] ∧
    extractPrimaryKey (("id integer PRIMARY KEY, name text").data) =
      pkInline (("id integer PRIMARY KEY, name text").data) ∧
    pkInline (("PRIMARY KEY (\"a\", b)").data) = [] ∧
    extractPrimaryKey (("PRIMARY KEY (\"a\", b)").data) =
      [("a").data, ("b").data] := by
  refine ⟨by decide,
    (C2_pk_paths_amended (("id integer PRIMARY KEY, name text").data)).1 (by decide),
    by decide, ?_⟩
  have h := (C2_pk_paths_amended (("PRIMARY KEY (\"a\", b)").data)).2 (by decide)
  rw [h]
  decide

/-- `self.tables`: the registry mapping qualified names to tables, in
insertion order (a Python dict). -/
abbrev Registry := List (Str × Table)

/-- Python dict lookup. -/
def lookupReg : Registry → Str → Option Table
  | [], _ => none
  | (k, v) :: t, n => if k = n then some v else lookupReg t n

/-- Python dict assignment: replace in place when the key exists, append
otherwise. -/
def insertReg : Registry → Str → Table → Registry
  | [], k, v => [(k, v)]
  | (k', v') :: t, k, v =>
      if k' = k then (k, v) :: t else (k', v') :: insertReg t k v

/-- Schema qualification used throughout `document_schema.py`: the schema
prefix is attached only when it differs from "public". -/
def qualName (schema name : Str) : Str :=
  if schema ≠ ("public").data then schema ++ '.' :: name else name

/-- Parenthesised column-list capture of the foreign-key patterns (a nonempty
run of non-close characters, then the close); returns the capture and the
remainder after the close. -/
def capCols (s : Str) : Option (Str × Str) :=
  let inner := s.takeWhile (fun c => !(c == ')'))
  if inner.isEmpty then none
  else
    match s.drop inner.length with
    | c :: cs => if c = ')' then some (inner, cs) else none
    | [] => none

/-- Column-list split and cleanup of the foreign-key parsers: split on
commas, strip whitespace and double quotes. -/
def fkCols (cap : Str) : List Str := (splitCommaAux [] cap).map cleanCol

/-- Core of the foreign-key patterns of `_parse_table_foreign_keys` and
`_parse_alter_table_foreign_keys`: FOREIGN KEY, a column-list capture,
REFERENCES, an optional schema, the referenced table, a second column-list
capture.  (The alter variant's trailing optional ON DELETE group binds no
capture and its extent is never used, so it is not modelled.)  Returns the
from-capture, optional schema, referenced table, to-capture, and remainder. -/
def matchFkCoreAt (s : Str) : Option (Str × Option Str × Str × Str × Str) :=
  match litCI ("FOREIGN").data s with
  | none => none
  | some r1 =>
    match ws1 r1 with
    | none => none
    | some r2 =>
      match litCI ("KEY").data r2 with
      | none => none
      | some r3 =>
        match expectChar '(' (dropWs r3) with
        | none => none
        | some r4 =>
          match capCols r4 with
          | none => none
          | some (cap1, r5) =>
            match litCI ("REFERENCES").data (dropWs r5) with
            | none => none
            | some r6 =>
              match ws1 r6 with
              | none => none
              | some r7 =>
                let cont : Str → Option (Str × Str × Str) := fun t =>
                  match wordRun1 t with
                  | none => none
                  | some (tbl, r8) =>
                    match expectChar '(' (dropWs r8) with
                    | none => none
                    | some r9 =>
                      (capCols r9).map (fun p => (tbl, p.1, p.2))
                let withSchema : Option (Option Str × Str × Str × Str) :=
                  match wordRun1 r7 with
                  | none => none
                  | some (sch, rs) =>
                    match expectChar '.' rs with
                    | none => none
                    | some rs2 => (cont rs2).map (fun x => (some sch, x))
                match withSchema with
                | some (schOpt, tbl, cap2, rest) =>
                    some (cap1, schOpt, tbl, cap2, rest)
                | none =>
                    (cont r7).map (fun x => (cap1, none, x.1, x.2.1, x.2.2))

/-- Anchored inline foreign-key pattern of `_parse_table_foreign_keys`: an
optional CONSTRAINT name, then the core; returns also the optional name. -/
def matchFkAt (s : Str) :
    Option (Option Str × Str × Option Str × Str × Str × Str) :=
  let withName : Option (Option Str × Str × Option Str × Str × Str × Str) :=
    match litCI ("CONSTRAINT").data s with
    | none => none
    | some r1 =>
      match ws1 r1 with
      | none => none
      | some r2 =>
        match wordRun1 r2 with
        | none => none
        | some (nm, r3) =>
          match ws1 r3 with
          | none => none
          | some r4 =>
            (matchFkCoreAt r4).map (fun m =>
              (some nm, m.1, m.2.1, m.2.2.1, m.2.2.2.1, m.2.2.2.2))
  match withName with
  | some m => some m
  | none =>
    (matchFkCoreAt s).map (fun m =>
      ((none : Option Str), m.1, m.2.1, m.2.2.1, m.2.2.2.1, m.2.2.2.2))

/-- `re.finditer` loop of the inline foreign-key pattern: non-overlapping
left-to-right matches over the table body. -/
def searchFkAllAux :
    Nat → Str → List (Option Str × Str × Option Str × Str × Str)
  | 0, _ => []
  | _ + 1, [] => []
  | f + 1, c :: cs =>
      match matchFkAt (c :: cs) with
      | some (nm, cap1, sch, tbl, cap2, rest) =>
          (nm, cap1, sch, tbl, cap2) :: searchFkAllAux f rest
      | none => searchFkAllAux f cs

/-- `SchemaParser._parse_table_foreign_keys`. -/
def parseTableForeignKeys (td tableName schema : Str) : List ForeignKey :=
  (searchFkAllAux td.length td).map (fun m =>
    { from_table := qualName schema tableName
      from_columns := fkCols m.2.1
      to_table := qualName ((m.2.2.1).getD (("public").data)) m.2.2.2.1
      to_columns := fkCols m.2.2.2.2
      constraint_name := (m.1).getD (("unnamed").data) })

/-- `SchemaParser._parse_table_check_constraints`: split the body and apply
the per-fragment step. -/
def parseTableCheckConstraints (td : Str) : List CheckConstraint :=
  (splitTableDefinition td).filterMap tableCheckOfPart

/-- Anchored CREATE TABLE opening pattern of `_parse_tables`: CREATE,
TABLE, an optional IF NOT EXISTS, an optional schema prefix, the table name,
optional whitespace, an opening parenthesis; returns the optional schema,
name, and the text after the opening parenthesis. -/
def matchCreateAt (s : Str) : Option (Option Str × Str × Str) :=
  match litCI ("CREATE").data s with
  | none => none
  | some r1 =>
    match ws1 r1 with
    | none => none
    | some r2 =>
      match litCI ("TABLE").data r2 with
      | none => none
      | some r3 =>
        match ws1 r3 with
        | none => none
        | some r4 =>
          let afterIne :=
            match litCI ("IF").data r4 with
            | none => r4
            | some i1 =>
              match ws1 i1 with
              | none => r4
              | some i2 =>
                match litCI ("NOT").data i2 with
                | none => r4
                | some i3 =>
                  match ws1 i3 with
                  | none => r4
                  | some i4 =>
                    match litCI ("EXISTS").data i4 with
                    | none => r4
                    | some i5 =>
                      match ws1 i5 with
                      | none => r4
                      | some i6 => i6
          let cont : Str → Option (Str × Str) := fun t =>
            match wordRun1 t with
            | none => none
            | some (nm, r5) =>
              (expectChar '(' (dropWs r5)).map (fun r6 => (nm, r6))
          let withSchema : Option (Option Str × Str × Str) :=
            match wordRun1 afterIne with
            | none => none
            | some (sch, rs) =>
              match expectChar '.' rs with
              | none => none
              | some rs2 => (cont rs2).map (fun x => (some sch, x.1, x.2))
          match withSchema with
          | some m => some m
          | none => (cont afterIne).map (fun x => ((none : Option Str), x.1, x.2))

/-- `re.search` of the CREATE TABLE opening pattern: leftmost match. -/
def searchCreateAux : Nat → Str → Option (Option Str × Str × Str)
  | 0, _ => none
  | _ + 1, [] => none
  | f + 1, c :: cs =>
      match matchCreateAt (c :: cs) with
      | some m => some m
      | none => searchCreateAux f cs

/-- Per-statement table construction of `_parse_tables`. -/
def mkTable (schema nm td : Str) : Table :=
  { name := nm
    schema := schema
    columns := parseColumns td
    primary_key_columns := extractPrimaryKey td
    foreign_keys := parseTableForeignKeys td nm schema
    check_constraints := parseTableCheckConstraints td }

/-- Cursor loop of `_parse_tables`: find the next CREATE TABLE opening, scan
for the balanced close of the body, register the table under its qualified
name (overwriting any previous entry), and continue after the close.  When
the scan runs off the end of the input the cursor is set past the end, so the
loop stops with nothing added for that statement.  The fuel bounds the number
of iterations; every iteration consumes at least one character, so the
wrapper's fuel of length-plus-one is never exhausted. -/
def parseTablesAux : Nat → Str → Registry → Registry
  | 0, _, acc => acc
  | f + 1, s, acc =>
      match searchCreateAux s.length s with
      | none => acc
      | some (schOpt, nm, afterParen) =>
          match scanBal 1 afterParen with
          | none => acc
          | some (body, rest) =>
              let schema := schOpt.getD (("public").data)
              parseTablesAux f rest (insertReg acc (qualName schema nm) (mkTable schema nm body))

/-- `SchemaParser._parse_tables` (total, never raising). -/
def parseTables (s : Str) : Registry := parseTablesAux (s.length + 1) s []

/-- C8: a CREATE TABLE statement whose opening keywords match but whose body
scan reaches the end of input before the parenthesis depth returns to zero is
dropped: the registry is returned exactly as it was (no table for that
statement, no partial entry), and the embedded parser is a total function, so
no exception is possible.  The count hypothesis says every prefix of the body
closes at most as many parentheses as it opens, i.e. the scan never returns
to depth zero. -/
theorem C8_unterminated_create_dropped (f : Nat) (s : Str) (acc : Registry)
    (schOpt : Option Str) (nm after : Str)
    (hs : searchCreateAux s.length s = some (schOpt, nm, after))
    (hcnt : ∀ p q : Str, after = p ++ q → p.count ')' ≤ p.count '(') :
    parseTablesAux (f + 1) s acc = acc := by
  have hnone : scanBal 1 after = none := by
    rw [scanBal_eq_none_iff after 1 (by omega)]
    intro p q hpq
    have := hcnt p q hpq
    omega
  unfold parseTablesAux
  rw [hs]
  simp [hnone]

/-- C8 (witness): a concrete unterminated statement parses to the empty
registry. -/
theorem C8_unterminated_create_dropped_witness :
    parseTables (("CREATE TABLE t (a integer").data) = [] := by
  have h := C8_unterminated_create_dropped
    (("CREATE TABLE t (a integer").data).length
    (("CREATE TABLE t (a integer").data) [] none (("t").data)
    (("a integer").data) (by decide)
    (fun p q hpq => by
      have hn := (scanBal_eq_none_iff (("a integer").data) 1 (by omega)).mp
        (by decide) p q hpq
      omega)
  exact h

/-- C10: when two CREATE TABLE statements produce the same qualified name,
the registry keeps only the table built from the later statement: dict
assignment overwrites (first conjunct, for every registry), and on a concrete
duplicate input the registry holds exactly the second table, so the first
table's contents are no longer reachable; parsing is total, so no error is
raised for the duplicate. -/
theorem C10_duplicate_create_overwrites :
    (∀ (r : Registry) (k : Str) (v : Table), lookupReg (insertReg r k v) k = some v) ∧
    parseTables (("CREATE TABLE t (a integer); CREATE TABLE t (b text);").data) =
      [((("t").data),
        { name := ("t").data
          schema := ("public").data
          columns := [{ name := ("b").data, data_type := ("text").data }] })] ∧
    lookupReg
      (parseTables (("CREATE TABLE t (a integer); CREATE TABLE t (b text);").data))
      (("t").data) =
      some
        { name := ("t").data
          schema := ("public").data
          columns := [{ name := ("b").data, data_type := ("text").data }] } := by
  refine ⟨?_, by decide, by decide⟩
  intro r k v
  induction r with
  | nil => simp [insertReg, lookupReg]
  | cons e t ih =>
    obtain ⟨k', v'⟩ := e
    by_cases hk : k' = k
    · simp [insertReg, hk, lookupReg]
    · simp [insertReg, hk, lookupReg, ih]

/-- Table-name tail of the ALTER TABLE pattern of
`_parse_alter_table_foreign_keys`: the table word, mandatory whitespace, then
an optional IF EXISTS (kept only when it matches completely). -/
def alterNameTail (u : Str) : Option (Str × Str) :=
  match wordRun1 u with
  | none => none
  | some (nm, r1) =>
    match ws1 r1 with
    | none => none
    | some r2 =>
      let afterIe :=
        match litCI ("IF").data r2 with
        | none => r2
        | some i1 =>
          match ws1 i1 with
          | none => r2
          | some i2 =>
            match litCI ("EXISTS").data i2 with
            | none => r2
            | some i3 =>
              match ws1 i3 with
              | none => r2
              | some i4 => i4
      some (nm, afterIe)

/-- Optional schema prefix then the name tail of the ALTER TABLE pattern. -/
def alterSchemaName (t : Str) : Option (Option Str × Str × Str) :=
  let withSchema : Option (Option Str × Str × Str) :=
    match wordRun1 t with
    | none => none
    | some (sch, rs) =>
      match expectChar '.' rs with
      | none => none
      | some rs2 => (alterNameTail rs2).map (fun x => (some sch, x.1, x.2))
  match withSchema with
  | some m => some m
  | none => (alterNameTail t).map (fun x => ((none : Option Str), x.1, x.2))

/-- Anchored ALTER TABLE pattern of `_parse_alter_table_foreign_keys`:
ALTER, TABLE, optional ONLY (dropped again if the rest cannot match after
it), optional schema, table name; returns the optional schema, the name, and
the text after the match. -/
def matchAlterAt (s : Str) : Option (Option Str × Str × Str) :=
  match litCI ("ALTER").data s with
  | none => none
  | some r1 =>
    match ws1 r1 with
    | none => none
    | some r2 =>
      match litCI ("TABLE").data r2 with
      | none => none
      | some r3 =>
        match ws1 r3 with
        | none => none
        | some r4 =>
          let withOnly : Option (Option Str × Str × Str) :=
            match litCI ("ONLY").data r4 with
            | none => none
            | some o1 =>
              match ws1 o1 with
              | none => none
              | some o2 => alterSchemaName o2
          match withOnly with
          | some m => some m
          | none => alterSchemaName r4

/-- `re.finditer` loop of the ALTER TABLE pattern over the whole document. -/
def searchAlterAllAux : Nat → Str → List (Option Str × Str × Str)
  | 0, _ => []
  | _ + 1, [] => []
  | f + 1, c :: cs =>
      match matchAlterAt (c :: cs) with
      | some (sch, nm, rest) => (sch, nm, rest) :: searchAlterAllAux f rest
      | none => searchAlterAllAux f cs

/-- Anchored ADD CONSTRAINT pattern: ADD, CONSTRAINT, the constraint name,
trailing whitespace; returns the name and the text after the match. -/
def matchAddConstraintAt (s : Str) : Option (Str × Str) :=
  match litCI ("ADD").data s with
  | none => none
  | some r1 =>
    match ws1 r1 with
    | none => none
    | some r2 =>
      match litCI ("CONSTRAINT").data r2 with
      | none => none
      | some r3 =>
        match ws1 r3 with
        | none => none
        | some r4 =>
          match wordRun1 r4 with
          | none => none
          | some (nm, r5) =>
            match ws1 r5 with
            | none => none
            | some r6 => some (nm, r6)

/-- `re.search` of the ADD CONSTRAINT pattern inside a lookahead window. -/
def searchAddAux : Nat → Str → Option (Str × Str)
  | 0, _ => none
  | _ + 1, [] => none
  | f + 1, c :: cs =>
      match matchAddConstraintAt (c :: cs) with
      | some m => some m
      | none => searchAddAux f cs

/-- `re.search` of the foreign-key core pattern inside a lookahead window. -/
def searchFkCoreAux : Nat → Str → Option (Str × Option Str × Str × Str × Str)
  | 0, _ => none
  | _ + 1, [] => none
  | f + 1, c :: cs =>
      match matchFkCoreAt (c :: cs) with
      | some m => some m
      | none => searchFkCoreAux f cs

/-- Append a foreign key to an existing registry entry; never inserts a new
entry (the caller has already checked membership). -/
def appendFkReg : Registry → Str → ForeignKey → Registry
  | [], _, _ => []
  | (k, v) :: t, n, fk =>
      if k = n then
        (k, { v with foreign_keys := v.foreign_keys ++ [fk] }) :: t
      else (k, v) :: appendFkReg t n fk

/-- Per-ALTER-match step of `_parse_alter_table_foreign_keys`: a
2000-character lookahead window for ADD CONSTRAINT, then a 1000-character
window from the constraint name for the FOREIGN KEY clause; the resulting
key is attached only when the ALTERed table's qualified name is already
registered — the REFERENCES target is never consulted. -/
def alterStep (reg : Registry) (m : Option Str × Str × Str) : Registry :=
  let schema := (m.1).getD (("public").data)
  let nm := m.2.1
  let rest := m.2.2
  let window1 := rest.take 2000
  match searchAddAux window1.length window1 with
  | none => reg
  | some (cname, remInWin) =>
      let consumed := window1.length - remInWin.length
      let fkWindow := (rest.drop consumed).take 1000
      match searchFkCoreAux fkWindow.length fkWindow with
      | none => reg
      | some (cap1, schOpt, refTbl, cap2, _) =>
          let fullName := qualName schema nm
          if (lookupReg reg fullName).isSome then
            appendFkReg reg fullName
              { from_table := fullName
                from_columns := fkCols cap1
                to_table := qualName (schOpt.getD (("public").data)) refTbl
                to_columns := fkCols cap2
                constraint_name := cname }
          else reg

/-- `SchemaParser._parse_alter_table_foreign_keys`. -/
def parseAlterTableForeignKeys (sql : Str) (reg : Registry) : Registry :=
  (searchAlterAllAux sql.length sql).foldl alterStep reg

/-- The foreign-key-relevant prefix of `SchemaParser.parse`: CREATE TABLE
extraction, then the ALTER TABLE foreign-key pass.  The later passes
(ALTER TABLE check constraints, indexes, comments) never modify a table's
`foreign_keys`, so every foreign-key observation below also holds of the full
pipeline. -/
def parseSchemaFks (sql : Str) : Registry :=
  parseAlterTableForeignKeys sql (parseTables sql)

theorem lookupReg_appendFkReg_none (reg : Registry) (n : Str) (fk : ForeignKey)
    (t : Str) (h : lookupReg reg t = none) :
    lookupReg (appendFkReg reg n fk) t = none := by
  induction reg with
  | nil => simpa [appendFkReg] using h
  | cons e rest ih =>
    obtain ⟨k, v⟩ := e
    simp only [lookupReg] at h
    by_cases hkt : k = t
    · rw [if_pos hkt] at h
      exact absurd h (by simp)
    · rw [if_neg hkt] at h
      by_cases hkn : k = n
      · simp [appendFkReg, hkn, lookupReg, hkn ▸ hkt, h]
      · simp [appendFkReg, hkn, lookupReg, hkt, ih h]

theorem lookupReg_alterStep_none (reg : Registry)
    (m : Option Str × Str × Str) (t : Str) (h : lookupReg reg t = none) :
    lookupReg (alterStep reg m) t = none := by
  unfold alterStep
  dsimp only
  split
  · exact h
  · split
    · exact h
    · split
      · exact lookupReg_appendFkReg_none _ _ _ _ h
      · exact h

theorem lookupReg_foldl_alterStep_none (l : List (Option Str × Str × Str))
    (reg : Registry) (t : Str) (h : lookupReg reg t = none) :
    lookupReg (l.foldl alterStep reg) t = none := by
  induction l generalizing reg with
  | nil => simpa using h
  | cons m rest ih =>
    simp only [List.foldl_cons]
    exact ih _ (lookupReg_alterStep_none reg m t h)

/-- C1 (counterexample): an ALTER TABLE foreign key whose REFERENCES clause
names a table absent from the registry is not dropped.  The registry guard
tests only the ALTERed table: with `child` registered and `ghost` unknown,
the foreign key to `ghost` is attached to `child`, contradicting the claim
that such a clause attaches no foreign key to any table. -/
theorem C1_unknown_reference_counterexample :
    (lookupReg
        (parseSchemaFks
          (("CREATE TABLE child (x integer); ALTER TABLE child ADD CONSTRAINT fk_x FOREIGN KEY (x) REFERENCES ghost (id);").data))
        (("child").data)).map Table.foreign_keys =
      some
        [{ from_table := ("child").data
           from_columns := [("x").data]
           to_table := ("ghost").data
           to_columns := [("id").data]
           constraint_name := ("fk_x").data }] ∧
    (lookupReg
        (parseSchemaFks
          (("CREATE TABLE child (x integer); ALTER TABLE child ADD CONSTRAINT fk_x FOREIGN KEY (x) REFERENCES ghost (id);").data))
        (("child").data)).map Table.foreign_keys ≠ some [] := by
  exact ⟨by decide, by decide⟩

/-- C1 (amended): the registry guard of the ALTER TABLE foreign-key pass is
on the ALTERed table, not on the REFERENCES target.  For every document and
registry, a table absent from the registry stays absent (nothing is ever
attached to or created for an unregistered ALTER target, and the pass is a
total function, so no error is raised); and on a concrete document whose
ALTER targets the unregistered `ghost`, the registry is returned completely
unchanged, the registered table keeping zero foreign keys. -/
theorem C1_alter_fk_guard_amended :
    (∀ (sql : Str) (reg : Registry) (t : Str),
        lookupReg reg t = none →
        lookupReg (parseAlterTableForeignKeys sql reg) t = none) ∧
    parseSchemaFks
        (("CREATE TABLE child (x integer); ALTER TABLE ghost ADD CONSTRAINT fk_g FOREIGN KEY (x) REFERENCES child (id);").data) =
      parseTables
        (("CREATE TABLE child (x integer); ALTER TABLE ghost ADD CONSTRAINT fk_g FOREIGN KEY (x) REFERENCES child (id);").data) ∧
    (lookupReg
        (parseSchemaFks
          (("CREATE TABLE child (x integer); ALTER TABLE ghost ADD CONSTRAINT fk_g FOREIGN KEY (x) REFERENCES child (id);").data))
        (("child").data)).map Table.foreign_keys = some [] := by
  refine ⟨?_, by decide, by decide⟩
  intro sql reg t h
  exact lookupReg_foldl_alterStep_none _ reg t h

/-- C1 (witness): the amended guard theorem applied at a concrete document
and registry — the unregistered ALTER target stays absent. -/
theorem C1_alter_fk_guard_witness :
    lookupReg
        (parseAlterTableForeignKeys
          (("ALTER TABLE ghost ADD CONSTRAINT fk_g FOREIGN KEY (x) REFERENCES child (id);").data)
          (parseTables (("CREATE TABLE child (x integer);").data)))
        (("ghost").data) = none :=
  C1_alter_fk_guard_amended.1
    (("ALTER TABLE ghost ADD CONSTRAINT fk_g FOREIGN KEY (x) REFERENCES child (id);").data)
    (parseTables (("CREATE TABLE child (x integer);").data))
    (("ghost").data) (by decide)

/-- Edge metadata stored in the relationship tree
(`fk_info` of `_build_relationship_tree`). -/
structure FKInfo where
  from_cols : List Str
  to_cols : List Str
  constraint : Str
deriving Repr, DecidableEq

/-- The relationship tree: parent table name to ordered children with edge
metadata (a Python dict in insertion order). -/
abbrev RelTree := List (Str × List (Str × FKInfo))

/-- Dict update of `_build_relationship_tree`: create the parent's list on
first sight, append the edge. -/
def addEdge : RelTree → Str → (Str × FKInfo) → RelTree
  | [], k, e => [(k, [e])]
  | (k', l) :: t, k, e =>
      if k' = k then (k', l ++ [e]) :: t else (k', l) :: addEdge t k e

/-- `_build_relationship_tree`: for every table in registry order, for every
owned foreign key, record parent = to-table, child = from-table. -/
def buildRelationshipTree (reg : Registry) : RelTree :=
  reg.foldl (fun tr kv =>
    kv.2.foreign_keys.foldl (fun tr2 fk =>
      addEdge tr2 fk.to_table
        (fk.from_table, ⟨fk.from_columns, fk.to_columns, fk.constraint_name⟩)) tr) []

/-- Dict lookup in the tree. -/
def lookupTree : RelTree → Str → Option (List (Str × FKInfo))
  | [], _ => none
  | (k, l) :: t, n => if k = n then some l else lookupTree t n

/-- Python string comparison: lexicographic by code point. -/
def ltStr : Str → Str → Bool
  | [], [] => false
  | [], _ :: _ => true
  | _ :: _, [] => false
  | x :: xs, y :: ys => if x < y then true else if x = y then ltStr xs ys else false

/-- Insertion step of `sorted` on strings. -/
def insertSortedStr (x : Str) : List Str → List Str
  | [] => [x]
  | y :: ys => if ltStr x y then x :: y :: ys else y :: insertSortedStr x ys

/-- Python `sorted` on a list of strings (insertion sort; dict keys are
distinct, so stability is immaterial). -/
def sortStr (l : List Str) : List Str := l.foldr insertSortedStr []

theorem mem_insertSortedStr (x a : Str) (l : List Str) :
    a ∈ insertSortedStr x l ↔ a = x ∨ a ∈ l := by
  induction l with
  | nil => simp [insertSortedStr]
  | cons y ys ih =>
    by_cases hlt : ltStr x y = true
    · simp [insertSortedStr, hlt]
    · simp only [insertSortedStr, hlt]
      simp [List.mem_cons, ih]
      tauto

theorem mem_sortStr (a : Str) (l : List Str) : a ∈ sortStr l ↔ a ∈ l := by
  induction l with
  | nil => simp [sortStr]
  | cons x xs ih =>
    simp only [sortStr, List.foldr_cons] at *
    rw [mem_insertSortedStr, ih]
    simp

/-- Parent keys of the tree. -/
def treeKeys (tr : RelTree) : List Str := tr.map Prod.fst

/-- Exclusion test of the root-detection loop in
`_generate_ascii_relationship_diagram`: is `p` a child under any parent
other than `p` itself (self-referencing edges are skipped)? -/
def isChildElsewhere (tr : RelTree) (p : Str) : Bool :=
  tr.any (fun kv =>
    if kv.1 = p then false else kv.2.any (fun ce => if ce.1 = p then true else false))

/-- Root detection of `_generate_ascii_relationship_diagram` (lines 718-736):
among the sorted parent keys keep those that are not a child under a
different parent; if none remain, every parent is a root. -/
def rootTables (tr : RelTree) : List Str :=
  let sorted := sortStr (treeKeys tr)
  let roots := sorted.filter (fun p => !isChildElsewhere tr p)
  if roots.isEmpty then sorted else roots

/-- C5: a table is selected as a root iff it appears as a parent key and is
not a child under any different parent — when at least one table so
qualifies; otherwise every parent is a root.  A self-referencing edge alone
never disqualifies: a one-table self-loop tree has that table as its root. -/
theorem C5_root_detection (tr : RelTree) (t : Str) :
    ((sortStr (treeKeys tr)).filter (fun p => !isChildElsewhere tr p) ≠ [] →
      (t ∈ rootTables tr ↔ t ∈ treeKeys tr ∧ isChildElsewhere tr t = false)) ∧
    ((sortStr (treeKeys tr)).filter (fun p => !isChildElsewhere tr p) = [] →
      (t ∈ rootTables tr ↔ t ∈ treeKeys tr)) ∧
    (∀ i : FKInfo, rootTables [(t, [(t, i)])] = [t]) := by
  refine ⟨?_, ?_, ?_⟩
  · intro h
    unfold rootTables
    dsimp only
    rw [if_neg (by simpa [List.isEmpty_iff] using h)]
    rw [List.mem_filter, mem_sortStr]
    simp
  · intro h
    unfold rootTables
    dsimp only
    rw [h]
    simp [mem_sortStr]
  · intro i
    unfold rootTables
    dsimp only
    have hkeys : treeKeys [(t, [(t, i)])] = [t] := rfl
    rw [hkeys]
    have hsort : sortStr [t] = [t] := rfl
    rw [hsort]
    have hch : isChildElsewhere [(t, [(t, i)])] t = false := by
      simp [isChildElsewhere]
    simp [hch]

/-- C5 (witness): root detection on the concrete one-table self-loop tree of
an employees table referencing itself. -/
theorem C5_root_detection_witness :
    (("employees").data ∈
        rootTables
          [((("employees").data),
            [((("employees").data),
              ⟨[("manager_id").data], [("id").data], ("unnamed").data⟩)])] ↔
      ("employees").data ∈
          treeKeys
            [((("employees").data),
              [((("employees").data),
                ⟨[("manager_id").data], [("id").data], ("unnamed").data⟩)])] ∧
        isChildElsewhere
            [((("employees").data),
              [((("employees").data),
                ⟨[("manager_id").data], [("id").data], ("unnamed").data⟩)])]
            (("employees").data) = false) :=
  (C5_root_detection
    [((("employees").data),
      [((("employees").data),
        ⟨[("manager_id").data], [("id").data], ("unnamed").data⟩)])]
    (("employees").data)).1 (by decide)

/-- C6 (counterexample): with the child's reference written as a bare
column-level `REFERENCES parent (id)` — the claim's input shape — the parser
finds no foreign key at all (its inline pattern requires a literal
FOREIGN KEY clause), so the relationship tree is empty and root detection
yields no root: `parent` is not detected as a root and `child` is not its
descendant. -/
theorem C6_inline_references_counterexample :
    (lookupReg
        (parseSchemaFks
          (("CREATE TABLE parent (id integer); CREATE TABLE child (id integer, parent_id integer REFERENCES parent (id));").data))
        (("child").data)).map Table.foreign_keys = some [] ∧
    buildRelationshipTree
        (parseSchemaFks
          (("CREATE TABLE parent (id integer); CREATE TABLE child (id integer, parent_id integer REFERENCES parent (id));").data)) = [] ∧
    rootTables
        (buildRelationshipTree
          (parseSchemaFks
            (("CREATE TABLE parent (id integer); CREATE TABLE child (id integer, parent_id integer REFERENCES parent (id));").data))) = [] := by
  exact ⟨by decide, by decide, by decide⟩

/-- C6 (amended): with the foreign key declared as a table-level
`FOREIGN KEY (parent_id) REFERENCES parent (id)` clause, root detection
yields `parent` as the single root and `child` as its single descendant with
the column pair parent_id to id attached to the edge. -/
theorem C6_parent_child_amended :
    rootTables
        (buildRelationshipTree
          (parseSchemaFks
            (("CREATE TABLE parent (id integer); CREATE TABLE child (id integer, parent_id integer, FOREIGN KEY (parent_id) REFERENCES parent (id));").data))) =
      [("parent").data] ∧
    lookupTree
        (buildRelationshipTree
          (parseSchemaFks
            (("CREATE TABLE parent (id integer); CREATE TABLE child (id integer, parent_id integer, FOREIGN KEY (parent_id) REFERENCES parent (id));").data)))
        (("parent").data) =
      some
        [((("child").data),
          ⟨[("parent_id").data], [("id").data], ("unnamed").data⟩)] := by
  exact ⟨by decide, by decide⟩

/-- Four-space indent block of the tree renderer. -/
def sp4 : Str := ("    ").data

/-- Vertical-bar indent block of the tree renderer. -/
def bar4 : Str := ("│   ").data

/-- Last-child branch connector. -/
def elbow : Str := ("└── ").data

/-- Inner-child branch connector. -/
def tee : Str := ("├── ").data

/-- Python `", ".join`. -/
def joinCommaSp : List Str → Str
  | [] => []
  | [x] => x
  | x :: xs => x ++ (", ").data ++ joinCommaSp xs

/-- Stable insertion for sorting children by table name
(`sorted(children, key=lambda x: x[0])` in `draw_relationships`). -/
def insertPairByFst (x : Str × FKInfo) :
    List (Str × FKInfo) → List (Str × FKInfo)
  | [] => [x]
  | y :: ys => if ltStr y.1 x.1 then y :: insertPairByFst x ys else x :: y :: ys

/-- Stable sort of children by table name. -/
def sortPairsByFst (l : List (Str × FKInfo)) : List (Str × FKInfo) :=
  l.foldr insertPairByFst []

/-- Child loop of `draw_relationships`: `recv` is the renderer one fuel step
down, applied for a child that itself has children; a self-referencing child
(`child == parent`) instead emits the one-line back-reference marker and
recurses nowhere. -/
def drawKids (tr : RelTree)
    (recv : Str → List Str → Str → Bool → Nat → Bool → List Str)
    (parent : Str) (visited : List Str) (pfx : Str)
    (isLast showName : Bool) (depth : Nat) :
    List (Str × FKInfo) → List Str
  | [] => []
  | (child, info) :: rest =>
      let isLastChild := rest.isEmpty
      let connector :=
        if isLast && !showName then pfx
        else if isLast then pfx ++ sp4
        else pfx ++ bar4
      let newPfx := pfx ++ (if isLastChild then sp4 else bar4)
      let childHasKids :=
        match lookupTree tr child with
        | some l => !l.isEmpty
        | none => false
      let branch :=
        connector ++ (if isLastChild then elbow else tee) ++ child ++
          (" (").data ++ joinCommaSp info.from_cols ++ (" → ").data ++
          joinCommaSp info.to_cols ++ (")").data
      (branch ::
        (if child = parent then [newPfx ++ ("... (see above)").data]
         else if childHasKids then
           (newPfx ++ child) ::
             recv child visited newPfx isLastChild (depth + 1) false
         else [])) ++
        drawKids tr recv parent visited pfx isLast showName depth rest

/-- `draw_relationships` of `_generate_ascii_relationship_diagram`, rendered
pure: arguments are parent, visited set (a per-branch copy in the code, hence
simply a value here), prefix, is-last flag, depth, and the show-table-name
flag; the result is the list of emitted lines.  The function recurses only
into a child that is a parent key of the tree, and every non-returning frame
adds its (registered) parent to the visited set first, so the recursion depth
is bounded by the registry size; the fuel makes that bound explicit, and the
wrapper below supplies registry-size-plus-two, which is therefore never
exhausted. -/
def drawRelAux (tables : Registry) (tr : RelTree) (fuel : Nat) :
    Str → List Str → Str → Bool → Nat → Bool → List Str :=
  Nat.rec
    (motive := fun _ => Str → List Str → Str → Bool → Nat → Bool → List Str)
    (fun _ _ _ _ _ _ => [])
    (fun _ ih parent visited pfx isLast depth showName =>
      if (lookupReg tables parent).isNone then []
      else if visited.contains parent && decide (0 < depth) then []
      else
        let visited' := if visited.contains parent then visited else visited ++ [parent]
        let nameLines := if showName then [pfx ++ parent] else []
        nameLines ++
          (match lookupTree tr parent with
           | none => []
           | some children =>
               drawKids tr ih parent visited' pfx isLast showName depth
                 (sortPairsByFst children)))
    fuel

/-- Root-level invocation of `draw_relationships` (empty visited set, empty
prefix, last root, depth zero, name shown). -/
def drawRelationshipsFromRoot (tables : Registry) (tr : RelTree) (root : Str) :
    List Str :=
  drawRelAux tables tr (tables.length + 2) root [] [] true 0 true

/-- C7: a self-referencing foreign key.  The relationship tree records the
table as its own child; and for every fuel bound whatsoever the renderer
emits exactly three lines for that table — the table name, the branch line
with the column pair, and the one-line back-reference marker — recursing
nowhere, which is the termination content of the claim: the output is
independent of the recursion allowance. -/
theorem C7_self_reference (t : Str) (tbl : Table) (fk : ForeignKey) (f : Nat)
    (hfks : tbl.foreign_keys = [fk])
    (hfrom : fk.from_table = t) (hto : fk.to_table = t) :
    buildRelationshipTree [(t, tbl)] =
      [(t, [(t, ⟨fk.from_columns, fk.to_columns, fk.constraint_name⟩)])] ∧
    drawRelAux [(t, tbl)]
        [(t, [(t, ⟨fk.from_columns, fk.to_columns, fk.constraint_name⟩)])]
        (f + 1) t [] [] true 0 true =
      [t,
       sp4 ++ elbow ++ t ++ (" (").data ++ joinCommaSp fk.from_columns ++
         (" → ").data ++ joinCommaSp fk.to_columns ++ (")").data,
       sp4 ++ ("... (see above)").data] := by
  constructor
  · simp [buildRelationshipTree, hfks, addEdge, hfrom, hto]
  · simp [drawRelAux, drawKids, lookupReg, lookupTree, sortPairsByFst,
      insertPairByFst]

/-- C7 (witness): the employees self-reference of the specification.  The
tree marks employees as its own child and the rendered block is exactly the
three expected lines. -/
theorem C7_self_reference_witness :
    buildRelationshipTree
        [((("employees").data),
          { name := ("employees").data
            foreign_keys :=
              [{ from_table := ("employees").data
                 from_columns := [("manager_id").data]
                 to_table := ("employees").data
                 to_columns := [("id").data]
                 constraint_name := ("unnamed").data }] })] =
      [((("employees").data),
        [((("employees").data),
          ⟨[("manager_id").data], [("id").data], ("unnamed").data⟩)])] ∧
    drawRelAux
        [((("employees").data),
          { name := ("employees").data
            foreign_keys :=
              [{ from_table := ("employees").data
                 from_columns := [("manager_id").data]
                 to_table := ("employees").data
                 to_columns := [("id").data]
                 constraint_name := ("unnamed").data }] })]
        [((("employees").data),
          [((("employees").data),
            ⟨[("manager_id").data], [("id").data], ("unnamed").data⟩)])]
        1 (("employees").data) [] [] true 0 true =
      [("employees").data,
       ("    └── employees (manager_id → id)").data,
       ("    ... (see above)").data] := by
  have h := C7_self_reference (("employees").data)
    { name := ("employees").data
      foreign_keys :=
        [{ from_table := ("employees").data
           from_columns := [("manager_id").data]
           to_table := ("employees").data
           to_columns := [("id").data]
           constraint_name := ("unnamed").data }] }
    { from_table := ("employees").data
      from_columns := [("manager_id").data]
      to_table := ("employees").data
      to_columns := [("id").data]
      constraint_name := ("unnamed").data }
    0 rfl rfl rfl
  refine ⟨h.1, ?_⟩
  rw [h.2]
  decide
